import Mathlib

/-!
Shallow embedding of the stock-analytics computation pipeline of this
repository: the indicator engine, the signal classifier, the two portfolio
simulators, the forecaster, the max-drawdown metric and the insights route's
parameter handling, together with theorems settling the specification's
testable properties against these definitions.

Conventions of the embedding:
* JavaScript numbers are modelled as rationals (`ℚ`); every close/high/low
  is a rational, so the source's finiteness coercions (`toNumber`,
  `Number.isFinite` filters) are identities here.
* A nullable series entry is `Option ℚ` (`none` models `null`).
* `Math.sqrt` is an external primitive of the host platform; definitions
  that call it take it as an explicit function argument `msqrt`.
* Source default parameters are passed explicitly at call sites with the
  same values the source declares as defaults.
-/

/-- One OHLCV price bar (`{date, open, high, low, close, volume}`); `opn`
stands for the source's `open` field, which is a reserved word in Lean.
`volume = none` models a null or non-finite volume. -/
structure PriceBar where
  date : Int
  opn : ℚ
  high : ℚ
  low : ℚ
  close : ℚ
  volume : Option ℚ
deriving DecidableEq, Repr

/-- One mark-to-market portfolio point `{date, value}`. -/
structure SimPoint where
  date : Int
  value : ℚ
deriving DecidableEq, Repr

/-- One per-bar signal `{signal, numericSignal}`. -/
structure Signal where
  signal : String
  numericSignal : Int
deriving DecidableEq, Repr

/-- One trade-log event of the advanced simulator. -/
structure Trade where
  type : String
  date : Int
  price : ℚ
  changePct : Option ℚ
deriving DecidableEq, Repr

/-- Result shape of `calculateMACD`. -/
structure MACDResult where
  macd : List (Option ℚ)
  signal : List (Option ℚ)
deriving DecidableEq, Repr

/-- Result shape of `calculateBollingerBands`. -/
structure BollingerBands where
  middle : List (Option ℚ)
  upper : List (Option ℚ)
  lower : List (Option ℚ)
deriving DecidableEq, Repr

/-- Result shape of `calculateStochasticOscillator`. -/
structure StochasticResult where
  percentK : List (Option ℚ)
  percentD : List (Option ℚ)
deriving DecidableEq, Repr

/-- One forecast point `{date, value}`; dates are day numbers, `addDays`
becomes integer addition. -/
structure ForecastPoint where
  date : Int
  value : ℚ
deriving DecidableEq, Repr

/-- `Math.max(...xs)` over a nonempty spread (the empty case is never
reached by the guarded callers; it is given the dummy value 0). -/
def listMax : List ℚ → ℚ
  | [] => 0
  | [x] => x
  | x :: y :: xs => max x (listMax (y :: xs))

/-- `Math.min(...xs)` over a nonempty spread, same convention as `listMax`. -/
def listMin : List ℚ → ℚ
  | [] => 0
  | [x] => x
  | x :: y :: xs => min x (listMin (y :: xs))

/-- The source's `rolling` helper: entry `i` is `null` until `window`
values exist, otherwise the reducer applied to `values.slice(i+1-window, i+1)`. -/
def rolling {α : Type} (values : List α) (window : Nat) (reducer : List α → ℚ) :
    List (Option ℚ) :=
  (List.range values.length).map fun i =>
    if i + 1 < window then none
    else some (reducer ((values.drop (i + 1 - window)).take window))

/-- Recursion of the source's `ema`: carries the previous smoothed value,
repeating it verbatim on a `null` input (carry-forward policy). -/
def emaGo (multiplier : ℚ) (previous : Option ℚ) : List (Option ℚ) → List (Option ℚ)
  | [] => []
  | v :: rest =>
    match v with
    | none => previous :: emaGo multiplier previous rest
    | some value =>
      match previous with
      | none => some value :: emaGo multiplier (some value) rest
      | some p =>
        some ((value - p) * multiplier + p) ::
          emaGo multiplier (some ((value - p) * multiplier + p)) rest

/-- The source's `ema(values, period)` with multiplier `2/(period+1)`,
seeded by the first non-null value. -/
def ema (values : List (Option ℚ)) (period : Nat) : List (Option ℚ) :=
  emaGo (2 / ((period : ℚ) + 1)) none values

/-- `calculateSMA(points, window)`: rolling arithmetic mean of closes. -/
def calculateSMA (points : List PriceBar) (window : Nat) : List (Option ℚ) :=
  rolling (points.map PriceBar.close) window
    (fun slice => slice.sum / (slice.length : ℚ))

/-- Loop body of `calculateRSI`: `i` is the source's loop index, `gainAvg`
and `lossAvg` the running Wilder averages, `prev` the previous close. -/
def rsiGo (window : Nat) (i : Nat) (gainAvg lossAvg prev : ℚ) :
    List ℚ → List (Option ℚ)
  | [] => []
  | c :: rest =>
    let change := c - prev
    let gain := if 0 < change then change else 0
    let loss := if change < 0 then -change else 0
    if i ≤ window then
      if i = window then
        let g := (gainAvg + gain) / (window : ℚ)
        let l := (lossAvg + loss) / (window : ℚ)
        let rs := if l = 0 then 100 else g / l
        some (100 - 100 / (1 + rs)) :: rsiGo window (i + 1) g l c rest
      else
        none :: rsiGo window (i + 1) (gainAvg + gain) (lossAvg + loss) c rest
    else
      let g := (gainAvg * ((window : ℚ) - 1) + gain) / (window : ℚ)
      let l := (lossAvg * ((window : ℚ) - 1) + loss) / (window : ℚ)
      let rs := if l = 0 then 100 else g / l
      some (100 - 100 / (1 + rs)) :: rsiGo window (i + 1) g l c rest

/-- `calculateRSI(points, window)`: Wilder's smoothed RSI; index 0 is
always `null`, the loop starts at index 1. -/
def calculateRSI (points : List PriceBar) (window : Nat) : List (Option ℚ) :=
  match points.map PriceBar.close with
  | [] => []
  | c :: rest => none :: rsiGo window 1 0 0 c rest

/-- Pointwise difference of two nullable series (`null` if either side is). -/
def optSub : Option ℚ → Option ℚ → Option ℚ
  | some a, some b => some (a - b)
  | _, _ => none

/-- `calculateMACD(points, short, long, signal)`: EMA difference plus its
signal line; the source maps over `expShort` reading `expLong[index]`,
which on equal-length series is a pointwise zip. -/
def calculateMACD (points : List PriceBar)
    (shortWindow longWindow signalWindow : Nat) : MACDResult :=
  let closes := points.map fun b => some b.close
  let expShort := ema closes shortWindow
  let expLong := ema closes longWindow
  let macd := List.zipWith optSub expShort expLong
  ⟨macd, ema macd signalWindow⟩

/-- `calculateBollingerBands(points, window, numStdDev)`: middle is the
SMA; the band offset is `numStdDev` population standard deviations of the
trailing window of closes (`msqrt` stands for `Math.sqrt`). -/
def calculateBollingerBands (msqrt : ℚ → ℚ) (points : List PriceBar)
    (window : Nat) (numStdDev : ℚ) : BollingerBands :=
  let closes := points.map PriceBar.close
  let sma := calculateSMA points window
  let dev := fun (i : Nat) (mean : ℚ) =>
    let slice := (closes.drop (i + 1 - window)).take window
    msqrt ((slice.map fun c => (c - mean) * (c - mean)).sum / (slice.length : ℚ))
  let upper := (List.range points.length).map fun i =>
    if i + 1 < window then none
    else
      match (sma[i]?).getD none with
      | none => none
      | some mean => some (mean + dev i mean * numStdDev)
  let lower := (List.range points.length).map fun i =>
    if i + 1 < window then none
    else
      match (sma[i]?).getD none with
      | none => none
      | some mean => some (mean - dev i mean * numStdDev)
  ⟨sma, upper, lower⟩

/-- `calculateStochasticOscillator(points, kWindow, dWindow)`. `%K` is 0
when the trailing high-low range is zero; `%D` is a rolling mean of `%K`
whose reducer adds raw entries, so a `null` `%K` entry contributes 0 (the
source's `acc + value` coerces `null` to 0). -/
def calculateStochasticOscillator (points : List PriceBar)
    (kWindow dWindow : Nat) : StochasticResult :=
  let highs := points.map PriceBar.high
  let lows := points.map PriceBar.low
  let closes := points.map PriceBar.close
  let percentK := (List.range points.length).map fun i =>
    if i + 1 < kWindow then none
    else
      let rangeHigh := listMax ((highs.drop (i + 1 - kWindow)).take kWindow)
      let rangeLow := listMin ((lows.drop (i + 1 - kWindow)).take kWindow)
      let close := (closes[i]?).getD 0
      if rangeHigh = rangeLow then some 0
      else some ((close - rangeLow) / (rangeHigh - rangeLow) * 100)
  let percentD := rolling percentK dWindow
    (fun slice => (slice.foldl (fun acc v => acc + v.getD 0) 0) / (slice.length : ℚ))
  ⟨percentK, percentD⟩

/-- Loop body of `calculateVWAP`: a bar whose volume is `null`, zero or
non-finite is skipped entirely, leaving that output entry `null` and the
cumulative sums untouched. -/
def vwapGo (cumulativeVolume cumulativeTpv : ℚ) : List PriceBar → List (Option ℚ)
  | [] => []
  | row :: rest =>
    match row.volume with
    | none => none :: vwapGo cumulativeVolume cumulativeTpv rest
    | some v =>
      if v = 0 then none :: vwapGo cumulativeVolume cumulativeTpv rest
      else
        let typicalPrice := (row.high + row.low + row.close) / 3
        let cumVol := cumulativeVolume + v
        let cumTpv := cumulativeTpv + typicalPrice * v
        (if 0 < cumVol then some (cumTpv / cumVol) else none) ::
          vwapGo cumVol cumTpv rest

/-- `calculateVWAP(points)`: running cumulative typical-price/volume ratio. -/
def calculateVWAP (points : List PriceBar) : List (Option ℚ) :=
  vwapGo 0 0 points

/-- The forecaster's `linearRegression(points)`: ordinary least squares of
value against index, slope 0 on a degenerate denominator, `(0,0)` on empty
input. -/
def linearRegression (points : List ℚ) : ℚ × ℚ :=
  let n := points.length
  if n = 0 then (0, 0)
  else
    let idx := List.range n
    let sumX : ℚ := (idx.map fun (i : Nat) => (i : ℚ)).sum
    let sumY := points.sum
    let sumXY := (List.zipWith (fun (i : Nat) (y : ℚ) => (i : ℚ) * y) idx points).sum
    let sumXX := (idx.map fun (i : Nat) => (i : ℚ) * (i : ℚ)).sum
    let denominator := (n : ℚ) * sumXX - sumX * sumX
    let slope := if denominator = 0 then 0
      else ((n : ℚ) * sumXY - sumX * sumY) / denominator
    ((slope), (sumY - slope * sumX) / (n : ℚ))

/-- The forecaster's `smoothSeries(values, window)`: trailing moving
average anchored at `max(0, i-window+1)` (Nat subtraction realises the
clamp). -/
def smoothSeries (values : List ℚ) (window : Nat) : List ℚ :=
  (List.range values.length).map fun i =>
    let start := i + 1 - window
    let slice := (values.drop start).take (i + 1 - start)
    slice.sum / (slice.length : ℚ)

/-- `predictFuturePrices(points, indicator, model, days)`: three heuristic
models producing `days` future points dated one day after another past the
last bar; empty input or an unknown model name yields the empty list. The
source filters non-finite closes, which is an identity over `ℚ`. -/
def predictFuturePrices (points : List PriceBar) (indicator model : String)
    (days : Nat) : List ForecastPoint :=
  let closes := points.map PriceBar.close
  if closes.length = 0 then []
  else
    let lastDate := ((points.getLast?).map PriceBar.date).getD 0
    if model = ("simple") then
      let lastPrice := (closes.getLast?).getD 0
      let firstPrice := (closes.head?).getD 0
      let trend := (lastPrice - firstPrice) / (closes.length : ℚ)
      (List.range days).map fun (i : Nat) =>
        ⟨lastDate + (i : Int) + 1, lastPrice + trend * ((i : ℚ) + 1)⟩
    else if model = ("arima") then
      let sl := linearRegression closes
      (List.range days).map fun (i : Nat) =>
        ⟨lastDate + (i : Int) + 1, sl.1 * ((closes.length : ℚ) + (i : ℚ) + 1) + sl.2⟩
    else if model = ("prophet") then
      let smoothed := smoothSeries closes 7
      let sl := linearRegression smoothed
      (List.range days).map fun (i : Nat) =>
        ⟨lastDate + (i : Int) + 1, sl.1 * ((smoothed.length : ℚ) + (i : ℚ) + 1) + sl.2⟩
    else []

/-- Context object returned alongside the signals by `backtestStrategy`
(one variant per indicator branch, `emptyCtx` for the fall-through `{}`). -/
inductive StrategyContext where
  | smaCtx : List (Option ℚ) → StrategyContext
  | rsiCtx : List (Option ℚ) → StrategyContext
  | macdCtx : MACDResult → StrategyContext
  | bollCtx : BollingerBands → StrategyContext
  | stochCtx : StochasticResult → StrategyContext
  | emptyCtx : StrategyContext
deriving DecidableEq, Repr

/-- The neutral per-bar signal. -/
def holdSignal : Signal := ⟨"hold", 0⟩

/-- SMA branch of `backtestStrategy`: crossover of the SMA against the
close, graded by the gap as a fraction of the close. -/
def smaSignalAt (sma : List (Option ℚ)) (closes : List ℚ) (i : Nat) : Signal :=
  if i = 0 then holdSignal
  else
    match (sma[i-1]?).getD none, (sma[i]?).getD none with
    | some p, some c =>
      let prevClose := (closes[i-1]?).getD 0
      let close := (closes[i]?).getD 0
      if p < prevClose ∧ close ≤ c then
        let diff := c - close
        if diff > close * (2 / 100) then ⟨"sell_strong", -1⟩
        else if diff > close * (5 / 1000) then ⟨"sell_medium", -1⟩
        else ⟨"sell_weak", -1⟩
      else if prevClose < p ∧ c ≤ close then
        let diff := close - c
        if diff > close * (2 / 100) then ⟨"buy_strong", 1⟩
        else if diff > close * (5 / 1000) then ⟨"buy_medium", 1⟩
        else ⟨"buy_weak", 1⟩
      else holdSignal
    | _, _ => holdSignal

/-- RSI branch of `backtestStrategy`: threshold breach below 30 / above
70, graded by the distance past the threshold. -/
def rsiSignalAt (rsi : List (Option ℚ)) (i : Nat) : Signal :=
  match (rsi[i]?).getD none with
  | none => holdSignal
  | some value =>
    if value < 30 then
      let diff := 30 - value
      if diff > 10 then ⟨"buy_strong", 1⟩
      else if diff > 5 then ⟨"buy_medium", 1⟩
      else ⟨"buy_weak", 1⟩
    else if 70 < value then
      let diff := value - 70
      if diff > 10 then ⟨"sell_strong", -1⟩
      else if diff > 5 then ⟨"sell_medium", -1⟩
      else ⟨"sell_weak", -1⟩
    else holdSignal

/-- MACD branch of `backtestStrategy`: MACD line / signal line crossover,
graded by the divergence. -/
def macdSignalAt (macd signal : List (Option ℚ)) (i : Nat) : Signal :=
  if i = 0 then holdSignal
  else
    match (macd[i-1]?).getD none, (signal[i-1]?).getD none,
        (macd[i]?).getD none, (signal[i]?).getD none with
    | some pm, some ps, some cm, some cs =>
      if pm < ps ∧ cs ≤ cm then
        let diff := cm - cs
        if diff > 1 / 2 then ⟨"buy_strong", 1⟩
        else if diff > 1 / 10 then ⟨"buy_medium", 1⟩
        else ⟨"buy_weak", 1⟩
      else if ps < pm ∧ cm ≤ cs then
        let diff := cs - cm
        if diff > 1 / 2 then ⟨"sell_strong", -1⟩
        else if diff > 1 / 10 then ⟨"sell_medium", -1⟩
        else ⟨"sell_weak", -1⟩
      else holdSignal
    | _, _, _, _ => holdSignal

/-- Bollinger branch of `backtestStrategy`: close outside the envelope,
graded by the overshoot as a fraction of the close. -/
def bollingerSignalAt (upper lower : List (Option ℚ)) (closes : List ℚ) (i : Nat) :
    Signal :=
  match (upper[i]?).getD none, (lower[i]?).getD none with
  | some u, some l =>
    let close := (closes[i]?).getD 0
    if close < l then
      let diff := l - close
      if diff > close * (1 / 100) then ⟨"buy_strong", 1⟩
      else if diff > close * (2 / 1000) then ⟨"buy_medium", 1⟩
      else ⟨"buy_weak", 1⟩
    else if u < close then
      let diff := close - u
      if diff > close * (1 / 100) then ⟨"sell_strong", -1⟩
      else if diff > close * (2 / 1000) then ⟨"sell_medium", -1⟩
      else ⟨"sell_weak", -1⟩
    else holdSignal
  | _, _ => holdSignal

/-- Stochastic branch of `backtestStrategy`: `%K`/`%D` crossover while
`%K` is past the 20/80 threshold, graded by the distance past it. -/
def stochasticSignalAt (percentK percentD : List (Option ℚ)) (i : Nat) : Signal :=
  if i = 0 then holdSignal
  else
    match (percentK[i-1]?).getD none, (percentD[i-1]?).getD none,
        (percentK[i]?).getD none, (percentD[i]?).getD none with
    | some prevK, some prevD, some currK, some currD =>
      if prevK < prevD ∧ currD ≤ currK ∧ currK < 20 then
        let diff := 20 - currK
        if diff > 10 then ⟨"buy_strong", 1⟩
        else if diff > 5 then ⟨"buy_medium", 1⟩
        else ⟨"buy_weak", 1⟩
      else if prevD < prevK ∧ currK ≤ currD ∧ 80 < currK then
        let diff := currK - 80
        if diff > 10 then ⟨"sell_strong", -1⟩
        else if diff > 5 then ⟨"sell_medium", -1⟩
        else ⟨"sell_weak", -1⟩
      else holdSignal
    | _, _, _, _ => holdSignal

/-- `backtestStrategy(points, indicator)`: dispatches on the indicator
name; an unrecognised name falls through to the untouched all-hold signal
array and the empty context. Each branch only overwrites qualifying
indices, which per-index functions realise directly. -/
def backtestStrategy (msqrt : ℚ → ℚ) (points : List PriceBar)
    (indicator : String) : List Signal × StrategyContext :=
  let closes := points.map PriceBar.close
  if indicator = ("sma") then
    let sma := calculateSMA points 20
    ((List.range points.length).map (smaSignalAt sma closes), .smaCtx sma)
  else if indicator = ("rsi") then
    let rsi := calculateRSI points 14
    ((List.range points.length).map (rsiSignalAt rsi), .rsiCtx rsi)
  else if indicator = ("macd") then
    let m := calculateMACD points 12 26 9
    ((List.range points.length).map (macdSignalAt m.macd m.signal), .macdCtx m)
  else if indicator = ("bollinger") then
    let bands := calculateBollingerBands msqrt points 20 2
    ((List.range points.length).map (bollingerSignalAt bands.upper bands.lower closes),
      .bollCtx bands)
  else if indicator = ("stochastic") then
    let s := calculateStochasticOscillator points 14 3
    ((List.range points.length).map (stochasticSignalAt s.percentK s.percentD),
      .stochCtx s)
  else (points.map fun _ => holdSignal, .emptyCtx)

/-- Severity weight of the graduated simulator: the source initialises the
weight to 1 and overwrites it for the three graded suffixes. -/
def simWeight (signal : String) : ℚ :=
  if signal.endsWith ("strong") then 1 / 2
  else if signal.endsWith ("medium") then 3 / 10
  else if signal.endsWith ("weak") then 1 / 10
  else 1

/-- `signals[index]?.signal ?? 'hold'`. -/
def signalAt (signals : List Signal) (idx : Nat) : String :=
  ((signals[idx]?).map Signal.signal).getD ("hold")

/-- Running state of `runTradingSimulation`: cash, share count and the
0/1 position flag. -/
structure TradeState where
  cash : ℚ
  shares : ℚ
  position : Nat
deriving DecidableEq, Repr

/-- One bar of `runTradingSimulation`: a graded buy invests
`cash * weight` while flat, a graded sell disposes `shares * weight`
while holding, with a `1e-6` share-count flush back to flat. -/
def tradingStep (price : ℚ) (sig : String) (st : TradeState) : TradeState :=
  if sig.startsWith ("buy") ∧ st.position = 0 then
    let toInvest := st.cash * simWeight sig
    let shares := st.shares + toInvest / price
    ⟨st.cash - toInvest, shares, if 0 < shares then 1 else st.position⟩
  else if sig.startsWith ("sell") ∧ st.position = 1 then
    let toSell := st.shares * simWeight sig
    let cash := st.cash + toSell * price
    let shares := st.shares - toSell
    if shares ≤ 1 / 1000000 then ⟨cash, 0, 0⟩ else ⟨cash, shares, st.position⟩
  else st

/-- Loop of `runTradingSimulation` past index 0: apply the bar's signal,
then record `cash + shares * close`. -/
def runTradingGo (signals : List Signal) (st : TradeState) (idx : Nat) :
    List PriceBar → List SimPoint
  | [] => []
  | row :: rest =>
    let st1 := tradingStep row.close (signalAt signals idx) st
    ⟨row.date, st1.cash + st1.shares * row.close⟩ ::
      runTradingGo signals st1 (idx + 1) rest

/-- `runTradingSimulation(points, signals, initialCapital)`: index 0 only
records the starting capital; trading begins at index 1. -/
def runTradingSimulation (points : List PriceBar) (signals : List Signal)
    (initialCapital : ℚ) : List SimPoint :=
  match points with
  | [] => []
  | row :: rest =>
    ⟨row.date, initialCapital⟩ ::
      runTradingGo signals ⟨initialCapital, 0, 0⟩ 1 rest

/-- State trace of `runTradingGo`: the state before each remaining bar and
the final state, produced by the same `tradingStep`. -/
def tradingStatesGo (signals : List Signal) (st : TradeState) (idx : Nat) :
    List PriceBar → List TradeState
  | [] => [st]
  | row :: rest =>
    st :: tradingStatesGo signals
      (tradingStep row.close (signalAt signals idx) st) (idx + 1) rest

/-- The running `(cash, shares, position)` states of
`runTradingSimulation` over the whole replay. -/
def runTradingStates (points : List PriceBar) (signals : List Signal)
    (initialCapital : ℚ) : List TradeState :=
  match points with
  | [] => [⟨initialCapital, 0, 0⟩]
  | _ :: rest => tradingStatesGo signals ⟨initialCapital, 0, 0⟩ 1 rest

/-- Running state of the advanced `runSimulation`: cash, share count and
the remembered entry price (`none` models `null`). -/
structure AdvState where
  cash : ℚ
  shares : ℚ
  entryPrice : Option ℚ
deriving DecidableEq, Repr

/-- `signals[idx]?.numericSignal ?? 0`. -/
def numericSignalAt (signals : List Signal) (idx : Nat) : Int :=
  ((signals[idx]?).map Signal.numericSignal).getD 0

/-- Stop-loss / take-profit phase of one `runSimulation` bar, checked
before the signal phase while a position with a truthy entry price is
open; a falsy (zero) `stopLossPct`/`takeProfitPct` disables its rule. -/
def advStopPhase (stopLossPct takeProfitPct : ℚ) (row : PriceBar)
    (st : AdvState) : AdvState × List Trade :=
  match st.entryPrice with
  | some ep =>
    if 0 < st.shares ∧ ep ≠ 0 then
      let changePct := (row.close - ep) / ep * 100
      if stopLossPct ≠ 0 ∧ changePct ≤ -stopLossPct then
        (⟨st.cash + st.shares * row.close, 0, none⟩,
          [⟨"STOP", row.date, row.close, some changePct⟩])
      else if takeProfitPct ≠ 0 ∧ takeProfitPct ≤ changePct then
        (⟨st.cash + st.shares * row.close, 0, none⟩,
          [⟨"TARGET", row.date, row.close, some changePct⟩])
      else (st, [])
    else (st, [])
  | none => (st, [])

/-- Signal phase of one `runSimulation` bar: all-in entry while flat on a
positive signal (guarded by a positive price and quantity), full exit on a
negative signal while holding. -/
def advSignalPhase (sig : Int) (row : PriceBar) (st : AdvState) :
    AdvState × List Trade :=
  if 0 < sig ∧ st.shares = 0 ∧ 0 < row.close then
    let qty := st.cash / row.close
    if 0 < qty then
      (⟨st.cash - qty * row.close, qty, some row.close⟩,
        [⟨"BUY", row.date, row.close, none⟩])
    else (st, [])
  else if sig < 0 ∧ 0 < st.shares then
    let changePct := match st.entryPrice with
      | some ep => if ep ≠ 0 then some ((row.close - ep) / ep * 100) else none
      | none => none
    (⟨st.cash + st.shares * row.close, 0, none⟩,
      [⟨"SELL", row.date, row.close, changePct⟩])
  else (st, [])

/-- One full bar of `runSimulation`: stop/target check, then the
signal-driven action (so a stop-out can be followed by a same-bar re-entry,
as in the source's sequential statements). -/
def advStep (stopLossPct takeProfitPct : ℚ) (sig : Int) (row : PriceBar)
    (st : AdvState) : AdvState × List Trade :=
  let r1 := advStopPhase stopLossPct takeProfitPct row st
  let r2 := advSignalPhase sig row r1.1
  (r2.1, r1.2 ++ r2.2)

/-- Loop of `runSimulation`: equity point `cash + shares * price` after
each bar, the concatenated trade log, and the final state. -/
def advGo (stopLossPct takeProfitPct : ℚ) (signals : List Signal)
    (st : AdvState) (idx : Nat) :
    List PriceBar → List SimPoint × List Trade × AdvState
  | [] => ([], [], st)
  | row :: rest =>
    let r := advStep stopLossPct takeProfitPct (numericSignalAt signals idx) row st
    let tail := advGo stopLossPct takeProfitPct signals r.1 (idx + 1) rest
    (⟨row.date, r.1.cash + r.1.shares * row.close⟩ :: tail.1,
      r.2 ++ tail.2.1, tail.2.2)

/-- `runSimulation(points, signals, initialCapital, {stopLossPct,
takeProfitPct})`: the bar loop plus the end-of-series force liquidation of
a still-open position at a truthy final close. -/
def runSimulation (points : List PriceBar) (signals : List Signal)
    (initialCapital stopLossPct takeProfitPct : ℚ) :
    List SimPoint × List Trade :=
  let r := advGo stopLossPct takeProfitPct signals ⟨initialCapital, 0, none⟩ 0 points
  if 0 < r.2.2.shares then
    match points.getLast? with
    | some last =>
      if last.close ≠ 0 then
        (r.1, r.2.1 ++ [⟨"LIQUIDATE", last.date, last.close, none⟩])
      else (r.1, r.2.1)
    | none => (r.1, r.2.1)
  else (r.1, r.2.1)

/-- State trace of `advGo`: the state before each remaining bar and the
final state, produced by the same `advStep`. -/
def advStatesGo (stopLossPct takeProfitPct : ℚ) (signals : List Signal)
    (st : AdvState) (idx : Nat) : List PriceBar → List AdvState
  | [] => [st]
  | row :: rest =>
    st :: advStatesGo stopLossPct takeProfitPct signals
      (advStep stopLossPct takeProfitPct (numericSignalAt signals idx) row st).1
      (idx + 1) rest

/-- The running `(cash, shares, entryPrice)` states of `runSimulation`
over the whole replay. -/
def runSimulationStates (points : List PriceBar) (signals : List Signal)
    (initialCapital stopLossPct takeProfitPct : ℚ) : List AdvState :=
  advStatesGo stopLossPct takeProfitPct signals ⟨initialCapital, 0, none⟩ 0 points

/-- Loop of `maxDrawdown`: `peak = none` models the `-Infinity` seed; a
zero peak skips the update, otherwise the most negative
`(value - peak) / peak` seen so far is kept. -/
def mddGo (peak : Option ℚ) (maxDd : ℚ) : List SimPoint → ℚ
  | [] => maxDd
  | row :: rest =>
    let p := match peak with
      | none => row.value
      | some p0 => if p0 < row.value then row.value else p0
    let next := if p = 0 then maxDd
      else if (row.value - p) / p < maxDd then (row.value - p) / p else maxDd
    mddGo (some p) next rest

/-- `maxDrawdown(series)` of the advanced lab. -/
def maxDrawdown (series : List SimPoint) : ℚ :=
  mddGo none 0 series

/-- Query parameters of the `/insights` route that the capital path
touches: `none` models an absent (or empty, hence falsy) parameter, and a
present numeric parameter carries its parsed value, exactly as
`initialCapital ? Number(initialCapital) : undefined` forwards it. -/
structure InsightsQuery where
  symbol : Option String
  initialCapital : Option ℚ
deriving DecidableEq, Repr

/-- The capital `computeSignals` hands to `runTradingSimulation`: the
destructuring default 10000 applies only when the option is `undefined`. -/
def insightsCapitalUsed (q : InsightsQuery) : ℚ :=
  (q.initialCapital).getD 10000

/-- Validation-and-simulation path of the `/insights` route: the only
input check is on `symbol` (missing or empty is rejected with a 400
error); the capital is forwarded to the graduated simulator unchecked. -/
def insightsRun (history : List PriceBar) (signals : List Signal)
    (q : InsightsQuery) : Except String (List SimPoint) :=
  match q.symbol with
  | none => .error ("Query parameter \"symbol\" is required.")
  | some s =>
    if s = "" then .error ("Query parameter \"symbol\" is required.")
    else .ok (runTradingSimulation history signals (insightsCapitalUsed q))

/-- A bar whose four price fields share one value (test input shorthand). -/
def closeBar (c : ℚ) : PriceBar := ⟨0, c, c, c, c, some 1⟩

/-- A bar with given high, low and close (test input shorthand). -/
def hlcBar (h l c : ℚ) : PriceBar := ⟨0, c, h, l, c, some 1⟩

/-- A flat bar with a given volume (test input shorthand). -/
def volBar (c : ℚ) (v : Option ℚ) : PriceBar := ⟨0, c, c, c, c, v⟩

/-- 25 daily bars whose closes rise linearly from 100 to 124. -/
def linClosesBars : List PriceBar :=
  [closeBar 100, closeBar 101, closeBar 102, closeBar 103, closeBar 104,
    closeBar 105, closeBar 106, closeBar 107, closeBar 108, closeBar 109,
    closeBar 110, closeBar 111, closeBar 112, closeBar 113, closeBar 114,
    closeBar 115, closeBar 116, closeBar 117, closeBar 118, closeBar 119,
    closeBar 120, closeBar 121, closeBar 122, closeBar 123, closeBar 124]

/-- 15 bars whose closes rise by 1 each bar (1, 2, ..., 15). -/
def risingBars15 : List PriceBar :=
  [closeBar 1, closeBar 2, closeBar 3, closeBar 4, closeBar 5,
    closeBar 6, closeBar 7, closeBar 8, closeBar 9, closeBar 10,
    closeBar 11, closeBar 12, closeBar 13, closeBar 14, closeBar 15]

/-- 14 bars: thirteen with range `[1,2]` closing at 1, then one flat bar
at 1, so the trailing low equals the close while the range is nonzero. -/
def flatLowBars : List PriceBar :=
  List.replicate 13 (hlcBar 2 1 1) ++ [hlcBar 1 1 1]

/-- Three rising bars, shorter than every default window. -/
def bars3 : List PriceBar := [closeBar 1, closeBar 2, closeBar 3]


/-- C4: `predictFuturePrices` yields exactly `days` points for nonempty
input under each of the three models, the empty list for empty input, and
the empty list for any other model name (it is a total function, so no
error can be raised). -/
theorem predictFuturePrices_length_spec (points : List PriceBar) (indicator model : String)
    (days : Nat) :
    (points = [] → predictFuturePrices points indicator model days = []) ∧
    (points ≠ [] → (model = "simple" ∨ model = "arima" ∨ model = "prophet") →
      (predictFuturePrices points indicator model days).length = days) ∧
    (points ≠ [] → model ≠ "simple" → model ≠ "arima" → model ≠ "prophet" →
      predictFuturePrices points indicator model days = []) := by
  refine ⟨fun h => ?_, fun h hm => ?_, fun h h1 h2 h3 => ?_⟩
  · simp [predictFuturePrices, h]
  · have hne : points.length ≠ 0 := by simpa using h
    rcases hm with hm | hm | hm <;>
      simp [predictFuturePrices, hm, hne]
  · have hne : points.length ≠ 0 := by simpa using h
    simp [predictFuturePrices, hne, h1, h2, h3]

/-- C4 witness: a one-bar history with the simple model and `days = 3`
produces exactly 3 forecast points, and the empty history produces none. -/
theorem predictFuturePrices_length_spec_witness :
    (predictFuturePrices [closeBar 100] ("sma") ("simple") 3).length = 3 ∧
      predictFuturePrices [] ("sma") ("unknown") 3 = [] := by
  constructor
  · exact (predictFuturePrices_length_spec [closeBar 100] ("sma") ("simple") 3).2.1
      (by simp) (Or.inl rfl)
  · exact (predictFuturePrices_length_spec [] ("sma") ("unknown") 3).1 rfl

/-- C10: for any indicator name outside the five known ones,
`backtestStrategy` returns the untouched all-hold signal list (one hold
per bar) together with the empty context, without any error. -/
theorem backtestStrategy_unknown_indicator (msqrt : ℚ → ℚ) (points : List PriceBar)
    (indicator : String)
    (h : indicator ∉ (["sma", "rsi", "macd", "bollinger", "stochastic"] : List String)) :
    backtestStrategy msqrt points indicator =
      (points.map fun _ => holdSignal, StrategyContext.emptyCtx) := by
  simp only [List.mem_cons, List.mem_singleton, not_or] at h
  obtain ⟨h1, h2, h3, h4, h5⟩ := h
  simp [backtestStrategy, h1, h2, h3, h4, h5]

/-- C10 witness: the unknown indicator name `ichimoku` on a 3-bar input
yields three hold signals and the empty context. -/
theorem backtestStrategy_unknown_indicator_witness :
    backtestStrategy (fun q => q) bars3 ("ichimoku") =
      (bars3.map fun _ => holdSignal, StrategyContext.emptyCtx) :=
  backtestStrategy_unknown_indicator (fun q => q) bars3 ("ichimoku") (by decide)

/-- C9 (amended): the `/insights` route validates only the symbol; any
supplied `initialCapital` — zero or negative included — is forwarded
unchanged to the graduated simulator, and the default 10000 applies only
when the parameter is absent. No distinct input error exists for
non-positive capital. -/
theorem insights_capital_passthrough (history : List PriceBar) (signals : List Signal)
    (s : String) (hs : s ≠ "") (cap : Option ℚ) :
    insightsRun history signals ⟨some s, cap⟩ =
      .ok (runTradingSimulation history signals (cap.getD 10000)) := by
  simp [insightsRun, insightsCapitalUsed, hs]

/-- C9 witness: with symbol `AAPL` and capital `-5` the route runs the
simulator on `-5` and reports success. -/
theorem insights_capital_passthrough_witness :
    insightsRun [closeBar 2] [] ⟨some "AAPL", some (-5)⟩ =
      .ok (runTradingSimulation [closeBar 2] [] ((some (-5) : Option ℚ).getD 10000)) :=
  insights_capital_passthrough [closeBar 2] [] ("AAPL") (by decide) (some (-5))

/-- Skipped bars of `vwapGo`: whatever the cumulative state, a bar with
null or zero volume produces a `null` output entry at its own index. -/
theorem vwapGo_skip (points : List PriceBar) :
    ∀ (i : Nat) (cumV cumT : ℚ) (b : PriceBar), points[i]? = some b →
      (b.volume = none ∨ b.volume = some 0) →
      (vwapGo cumV cumT points)[i]? = some none := by
  induction points with
  | nil => intro i cumV cumT b hb; simp at hb
  | cons row rest ih =>
    intro i cumV cumT b hb hv
    cases i with
    | zero =>
      simp only [List.getElem?_cons_zero, Option.some.injEq] at hb
      subst hb
      rcases hv with hv | hv <;>
        simp [vwapGo, hv]
    | succ j =>
      simp only [List.getElem?_cons_succ] at hb ⊢
      unfold vwapGo
      rcases hrow : row.volume with _ | v
      · simpa using ih j cumV cumT b hb hv
      · by_cases hz : v = 0
        · simp only [hz, if_pos rfl]
          simpa using ih j cumV cumT b hb hv
        · simp only [if_neg hz]
          simpa using ih j _ _ b hb hv

/-- C7 counterexample: after a valid bar (VWAP 3), a zero-volume bar gets
`null` in the VWAP series rather than the carried-forward value 3, so the
claimed carry-forward does not happen. -/
theorem vwap_zero_volume_not_carried :
    calculateVWAP [volBar 3 (some 1), volBar 5 (some 0)] = [some 3, none] ∧
      (none : Option ℚ) ≠ some 3 := by
  constructor
  · norm_num [calculateVWAP, vwapGo, volBar]
  · simp

/-- C7 (amended): at every index whose bar has null or zero volume,
`calculateVWAP` emits `null` (never a carried-forward value); the
cumulative sums are simply left untouched for later bars. -/
theorem vwap_null_at_zero_volume (points : List PriceBar) (i : Nat) (b : PriceBar)
    (hb : points[i]? = some b) (hv : b.volume = none ∨ b.volume = some 0) :
    (calculateVWAP points)[i]? = some none :=
  vwapGo_skip points i 0 0 b hb hv

/-- C7 witness: on the two-bar input whose second bar has zero volume the
VWAP series is `null` at index 1. -/
theorem vwap_null_at_zero_volume_witness :
    (calculateVWAP [volBar 3 (some 1), volBar 5 (some 0)])[1]? = some none :=
  vwap_null_at_zero_volume [volBar 3 (some 1), volBar 5 (some 0)] 1
    (volBar 5 (some 0)) (by simp) (Or.inr rfl)

/-- Nonpositivity invariant of the drawdown fold: it never leaves the
nonpositive numbers. -/
theorem mddGo_nonpos (series : List SimPoint) :
    ∀ (peak : Option ℚ) (maxDd : ℚ), maxDd ≤ 0 → mddGo peak maxDd series ≤ 0 := by
  induction series with
  | nil => intro peak maxDd h; simpa [mddGo] using h
  | cons row rest ih =>
    intro peak maxDd h
    simp only [mddGo]
    apply ih
    split
    · exact h
    · split
      · next hlt => linarith
      · exact h

/-- On a non-decreasing tail whose head value is the current peak, the
drawdown fold keeps the accumulator at 0. -/
theorem mddGo_zero_of_monotone (series : List SimPoint) :
    ∀ p : ℚ, List.Chain' (· ≤ ·) (p :: series.map SimPoint.value) →
      mddGo (some p) 0 series = 0 := by
  induction series with
  | nil => intro p _; simp [mddGo]
  | cons row rest ih =>
    intro p hch
    simp only [List.map_cons, List.chain'_cons] at hch
    obtain ⟨hpr, hch⟩ := hch
    have hpeak : (if p < row.value then row.value else p) = row.value := by
      split
      · rfl
      · next hnlt => linarith
    simp only [mddGo, hpeak]
    have hnext : (if row.value = 0 then (0 : ℚ)
        else if (row.value - row.value) / row.value < 0 then (row.value - row.value) / row.value
        else 0) = 0 := by
      split
      · rfl
      · simp
    rw [hnext]
    exact ih row.value hch

/-- C8: `maxDrawdown` is never positive, and is exactly 0 on every
non-decreasing equity curve. -/
theorem maxDrawdown_nonpos_and_zero_on_monotone (series : List SimPoint) :
    maxDrawdown series ≤ 0 ∧
      (List.Chain' (· ≤ ·) (series.map SimPoint.value) → maxDrawdown series = 0) := by
  constructor
  · exact mddGo_nonpos series none 0 le_rfl
  · intro hch
    cases series with
    | nil => simp [maxDrawdown, mddGo]
    | cons row rest =>
      simp only [List.map_cons] at hch
      simp only [maxDrawdown, mddGo]
      have hnext : (if row.value = 0 then (0 : ℚ)
          else if (row.value - row.value) / row.value < 0 then (row.value - row.value) / row.value
          else 0) = 0 := by
        split
        · rfl
        · simp
      rw [hnext]
      exact mddGo_zero_of_monotone rest row.value hch

/-- C8 witness: the rising two-point curve 5, 7 has drawdown at most 0
and exactly 0. -/
theorem maxDrawdown_nonpos_and_zero_on_monotone_witness :
    maxDrawdown [⟨0, 5⟩, ⟨1, 7⟩] ≤ 0 ∧ maxDrawdown [⟨0, 5⟩, ⟨1, 7⟩] = 0 :=
  ⟨(maxDrawdown_nonpos_and_zero_on_monotone [⟨0, 5⟩, ⟨1, 7⟩]).1,
    (maxDrawdown_nonpos_and_zero_on_monotone [⟨0, 5⟩, ⟨1, 7⟩]).2
      (by norm_num [List.chain'_cons])⟩
/-- The graduated severity weight always lies in `[0,1]`. -/
theorem simWeight_nonneg_le_one (s : String) : 0 ≤ simWeight s ∧ simWeight s ≤ 1 := by
  unfold simWeight
  split
  · norm_num
  · split
    · norm_num
    · split
      · norm_num
      · norm_num

set_option maxHeartbeats 1600000 in
/-- One graduated-simulator bar preserves nonnegative cash and shares when
the bar's close is positive: a buy spends only `cash * weight` and a sell
disposes only `shares * weight`. -/
theorem tradingStep_nonneg (price : ℚ) (sig : String) (st : TradeState)
    (hp : 0 < price) (hc : 0 ≤ st.cash) (hs : 0 ≤ st.shares) :
    0 ≤ (tradingStep price sig st).cash ∧ 0 ≤ (tradingStep price sig st).shares := by
  obtain ⟨hw0, hw1⟩ := simWeight_nonneg_le_one sig
  unfold tradingStep
  dsimp only
  split
  · refine ⟨?_, ?_⟩
    · show 0 ≤ st.cash - st.cash * simWeight sig
      nlinarith
    · show 0 ≤ st.shares + st.cash * simWeight sig / price
      have : 0 ≤ st.cash * simWeight sig / price :=
        div_nonneg (mul_nonneg hc hw0) hp.le
      linarith
  · split
    · have hsell : 0 ≤ st.shares * simWeight sig * price :=
        mul_nonneg (mul_nonneg hs hw0) hp.le
      split
      · refine ⟨?_, le_rfl⟩
        show 0 ≤ st.cash + st.shares * simWeight sig * price
        linarith
      · refine ⟨?_, ?_⟩
        · show 0 ≤ st.cash + st.shares * simWeight sig * price
          linarith
        · show 0 ≤ st.shares - st.shares * simWeight sig
          nlinarith
    · exact ⟨hc, hs⟩

/-- The graduated-simulator state trace stays nonnegative from any
nonnegative start when all closes are positive. -/
theorem tradingStatesGo_nonneg (rest : List PriceBar) :
    ∀ (signals : List Signal) (st : TradeState) (idx : Nat),
      (∀ b ∈ rest, 0 < b.close) → 0 ≤ st.cash → 0 ≤ st.shares →
      ∀ s ∈ tradingStatesGo signals st idx rest, 0 ≤ s.cash ∧ 0 ≤ s.shares := by
  induction rest with
  | nil =>
    intro signals st idx _ hc hs s hmem
    simp only [tradingStatesGo, List.mem_singleton] at hmem
    subst hmem
    exact ⟨hc, hs⟩
  | cons row tail ih =>
    intro signals st idx hp hc hs s hmem
    simp only [tradingStatesGo, List.mem_cons] at hmem
    rcases hmem with rfl | hmem
    · exact ⟨hc, hs⟩
    · have hrow : 0 < row.close := hp row (List.mem_cons_self row tail)
      have hstep := tradingStep_nonneg row.close (signalAt signals idx) st hrow hc hs
      exact ih signals _ (idx + 1) (fun b hb => hp b (List.mem_cons_of_mem row hb))
        hstep.1 hstep.2 s hmem

/-- The stop/target phase preserves nonnegative cash and shares. -/
theorem advStopPhase_nonneg (stopLossPct takeProfitPct : ℚ) (row : PriceBar)
    (st : AdvState) (hprice : 0 < row.close) (hc : 0 ≤ st.cash) (hs : 0 ≤ st.shares) :
    0 ≤ (advStopPhase stopLossPct takeProfitPct row st).1.cash ∧
      0 ≤ (advStopPhase stopLossPct takeProfitPct row st).1.shares := by
  have hcs : 0 ≤ st.cash + st.shares * row.close :=
    add_nonneg hc (mul_nonneg hs hprice.le)
  unfold advStopPhase
  split
  · split
    · dsimp only
      split
      · exact ⟨hcs, le_rfl⟩
      · split
        · exact ⟨hcs, le_rfl⟩
        · exact ⟨hc, hs⟩
    · exact ⟨hc, hs⟩
  · exact ⟨hc, hs⟩

/-- The signal phase preserves nonnegative cash and shares: an all-in buy
leaves exactly zero cash, a full exit converts all shares to cash. -/
theorem advSignalPhase_nonneg (sig : Int) (row : PriceBar) (st : AdvState)
    (hprice : 0 < row.close) (hc : 0 ≤ st.cash) (hs : 0 ≤ st.shares) :
    0 ≤ (advSignalPhase sig row st).1.cash ∧
      0 ≤ (advSignalPhase sig row st).1.shares := by
  have hcs : 0 ≤ st.cash + st.shares * row.close :=
    add_nonneg hc (mul_nonneg hs hprice.le)
  unfold advSignalPhase
  dsimp only
  split
  · split
    · next hqty =>
      refine ⟨?_, ?_⟩
      · show 0 ≤ st.cash - st.cash / row.close * row.close
        rw [div_mul_cancel₀ _ (ne_of_gt hprice)]
        simp
      · exact hqty.le
    · exact ⟨hc, hs⟩
  · split
    · exact ⟨hcs, le_rfl⟩
    · exact ⟨hc, hs⟩

/-- One advanced-simulator bar preserves nonnegative cash and shares. -/
theorem advStep_nonneg (stopLossPct takeProfitPct : ℚ) (sig : Int) (row : PriceBar)
    (st : AdvState) (hprice : 0 < row.close) (hc : 0 ≤ st.cash) (hs : 0 ≤ st.shares) :
    0 ≤ (advStep stopLossPct takeProfitPct sig row st).1.cash ∧
      0 ≤ (advStep stopLossPct takeProfitPct sig row st).1.shares := by
  have h1 := advStopPhase_nonneg stopLossPct takeProfitPct row st hprice hc hs
  exact advSignalPhase_nonneg sig row _ hprice h1.1 h1.2

/-- The advanced-simulator state trace stays nonnegative from any
nonnegative start when all closes are positive. -/
theorem advStatesGo_nonneg (rest : List PriceBar) :
    ∀ (stopLossPct takeProfitPct : ℚ) (signals : List Signal) (st : AdvState) (idx : Nat),
      (∀ b ∈ rest, 0 < b.close) → 0 ≤ st.cash → 0 ≤ st.shares →
      ∀ s ∈ advStatesGo stopLossPct takeProfitPct signals st idx rest,
        0 ≤ s.cash ∧ 0 ≤ s.shares := by
  induction rest with
  | nil =>
    intro slp tpp signals st idx _ hc hs s hmem
    simp only [advStatesGo, List.mem_singleton] at hmem
    subst hmem
    exact ⟨hc, hs⟩
  | cons row tail ih =>
    intro slp tpp signals st idx hp hc hs s hmem
    simp only [advStatesGo, List.mem_cons] at hmem
    rcases hmem with rfl | hmem
    · exact ⟨hc, hs⟩
    · have hrow : 0 < row.close := hp row (List.mem_cons_self row tail)
      have hstep := advStep_nonneg slp tpp (numericSignalAt signals idx) row st hrow hc hs
      exact ih slp tpp signals _ (idx + 1) (fun b hb => hp b (List.mem_cons_of_mem row hb))
        hstep.1 hstep.2 s hmem

/-- C1: with positive closes and a nonnegative starting capital (the
spec's `initialCapital` is a positive number), both simulators keep the
running cash and share count nonnegative at every step of the replay, for
every signal sequence. -/
theorem simulators_cash_shares_nonneg (points : List PriceBar) (signals : List Signal)
    (initialCapital stopLossPct takeProfitPct : ℚ)
    (hcap : 0 ≤ initialCapital) (hp : ∀ b ∈ points, 0 < b.close) :
    (∀ st ∈ runTradingStates points signals initialCapital,
      0 ≤ st.cash ∧ 0 ≤ st.shares) ∧
    (∀ st ∈ runSimulationStates points signals initialCapital stopLossPct takeProfitPct,
      0 ≤ st.cash ∧ 0 ≤ st.shares) := by
  constructor
  · cases points with
    | nil =>
      intro st hmem
      simp only [runTradingStates, List.mem_singleton] at hmem
      subst hmem
      exact ⟨hcap, le_rfl⟩
    | cons row rest =>
      intro st hmem
      exact tradingStatesGo_nonneg rest signals ⟨initialCapital, 0, 0⟩ 1
        (fun b hb => hp b (List.mem_cons_of_mem row hb)) hcap le_rfl st hmem
  · intro st hmem
    exact advStatesGo_nonneg points stopLossPct takeProfitPct signals
      ⟨initialCapital, 0, none⟩ 0 hp hcap le_rfl st hmem

/-- C1 witness: the initial replay state of a one-bar run with capital
10000 has nonnegative cash and shares, via the invariant theorem. -/
theorem simulators_cash_shares_nonneg_witness :
    0 ≤ (TradeState.mk 10000 0 0).cash ∧ 0 ≤ (TradeState.mk 10000 0 0).shares :=
  (simulators_cash_shares_nonneg [closeBar 10] [] 10000 5 10 (by norm_num)
    (by norm_num [closeBar])).1 ⟨10000, 0, 0⟩
    (by simp [runTradingStates, tradingStatesGo])

/-- C9 counterexample: a request with a present symbol and
`initialCapital = -5` passes the route's only validation and the
graduated simulator runs with the negative capital (its first equity
point is -5); no distinct input error is signalled. -/
theorem insights_negative_capital_proceeds :
    insightsRun [closeBar 2] [] ⟨some "AAPL", some (-5)⟩ = .ok [⟨0, -5⟩] := by
  have h : ("AAPL" : String) ≠ "" := by decide
  simp only [insightsRun, insightsCapitalUsed, runTradingSimulation, runTradingGo, closeBar,
    h, if_neg, Option.getD_some, if_false]

/-- Along a non-decreasing close sequence every per-bar loss is 0, so the
smoothed average loss stays 0 through every phase of the RSI loop; the
source then substitutes `rs = 100`, making each computed entry
`100 - 100/(1+100) = 10000/101`. Entry `j` of the loop output corresponds
to loop index `i + j`. -/
theorem rsiGo_zero_loss (window : Nat) (hw : 1 ≤ window) :
    ∀ (rest : List ℚ) (i : Nat) (g prev : ℚ), 1 ≤ i →
      List.Chain' (· ≤ ·) (prev :: rest) →
      ∀ j, j < rest.length →
        (rsiGo window i g 0 prev rest)[j]? =
          some (if window ≤ i + j then some (10000 / 101) else none) := by
  intro rest
  induction rest with
  | nil =>
    intro i g prev _ _ j hj
    simp at hj
  | cons c tail ih =>
    intro i g prev hi hch j hj
    rw [List.chain'_cons] at hch
    obtain ⟨hpc, hch⟩ := hch
    have hloss : ¬(c - prev < 0) := by linarith
    have hval : (100 : ℚ) - 100 / (1 + 100) = 10000 / 101 := by norm_num
    simp only [rsiGo, hloss, if_false]
    by_cases hle : i ≤ window
    · by_cases heq : i = window
      · rw [heq]
        have hseed : ((0 : ℚ) + 0) / (window : ℚ) = 0 := by simp
        rw [if_pos (le_refl window), if_pos rfl, hseed, if_pos (Eq.refl (0 : ℚ)), hval]
        cases j with
        | zero =>
          have hcz : window ≤ window + 0 := by omega
          simp [hcz]
        | succ k =>
          simp only [List.getElem?_cons_succ]
          have := ih (window + 1) (((g + if 0 < c - prev then c - prev else 0)) / (window : ℚ))
            c (by omega) hch k (by simpa using hj)
          rw [this]
          have hcond : window ≤ window + 1 + k := by omega
          have hcond2 : window ≤ window + (k + 1) := by omega
          simp [hcond, hcond2]
      · have hlt : i < window := lt_of_le_of_ne hle heq
        simp only [if_pos hle, if_neg heq]
        cases j with
        | zero =>
          have hni : ¬(window ≤ i) := by omega
          simp [hni]
        | succ k =>
          simp only [List.getElem?_cons_succ, add_zero]
          have := ih (i + 1) (g + if 0 < c - prev then c - prev else 0) c (by omega) hch
            k (by simpa using hj)
          rw [this]
          by_cases hc2 : window ≤ i + 1 + k
          · have : window ≤ i + (k + 1) := by omega
            simp [hc2, this]
          · have : ¬(window ≤ i + (k + 1)) := by omega
            simp [hc2, this]
    · have hsm : ((0 : ℚ) * ((window : ℚ) - 1) + 0) / (window : ℚ) = 0 := by simp
      simp only [if_neg hle, hsm, if_pos (Eq.refl (0 : ℚ))]
      cases j with
      | zero =>
        have hwi : window ≤ i := by omega
        simp [hwi, hval]
      | succ k =>
        simp only [List.getElem?_cons_succ]
        have := ih (i + 1)
          ((g * ((window : ℚ) - 1) + if 0 < c - prev then c - prev else 0) / (window : ℚ))
          c (by omega) hch k (by simpa using hj)
        rw [this]
        have hcond : window ≤ i + 1 + k := by omega
        have hcond2 : window ≤ i + (k + 1) := by omega
        simp [hcond, hcond2]

/-- On non-decreasing closes, every RSI entry from the seed index onward
equals `10000/101` (about 99.0099), not 100. -/
theorem calculateRSI_mono (points : List PriceBar) (window : Nat) (hw : 1 ≤ window)
    (hmono : List.Chain' (· ≤ ·) (points.map PriceBar.close))
    (i : Nat) (hwi : window ≤ i) (hi : i < points.length) :
    (calculateRSI points window)[i]? = some (some (10000 / 101)) := by
  rcases hmap : points.map PriceBar.close with _ | ⟨c, rest⟩
  · have h0 : points.length = 0 := by simpa using congrArg List.length hmap
    omega
  · have hlen : rest.length + 1 = points.length := by
      have h1 := congrArg List.length hmap
      simpa using h1.symm
    rw [hmap] at hmono
    obtain ⟨k, rfl⟩ : ∃ k, i = k + 1 := ⟨i - 1, by omega⟩
    simp only [calculateRSI, hmap, List.getElem?_cons_succ]
    have h := rsiGo_zero_loss window hw rest 1 0 c le_rfl hmono k (by omega)
    rw [h, if_pos (by omega)]

/-- C2 (amended): whenever the trailing average loss is zero — i.e. on
non-decreasing closes — `calculateRSI` returns exactly `10000/101`
(≈ 99.0099, not 100) at the first computed index and at every subsequent
index, because the source maps a zero average loss to `RS = 100` instead
of forcing `RSI = 100`. -/
theorem rsi_zero_loss_value (points : List PriceBar) (window : Nat) (hw : 1 ≤ window)
    (hmono : List.Chain' (· ≤ ·) (points.map PriceBar.close))
    (i : Nat) (hwi : window ≤ i) (hi : i < points.length) :
    (calculateRSI points window)[i]? = some (some (10000 / 101)) :=
  calculateRSI_mono points window hw hmono i hwi hi

/-- C2 witness: 15 bars rising by 1 give RSI `10000/101` at index 14. -/
theorem rsi_zero_loss_value_witness :
    (calculateRSI risingBars15 14)[14]? = some (some (10000 / 101)) :=
  rsi_zero_loss_value risingBars15 14 (by norm_num)
    (by norm_num [risingBars15, closeBar, List.chain'_cons]) 14 (by norm_num)
    (by norm_num [risingBars15])

/-- C2 counterexample: for 15 bars rising by 1 per bar the trailing
average loss at index 14 is zero, yet `calculateRSI` returns `10000/101`
there, which is not the claimed 100. -/
theorem rsi_zero_loss_not_hundred :
    (calculateRSI risingBars15 14)[14]? = some (some (10000 / 101)) ∧
      (10000 / 101 : ℚ) ≠ 100 := by
  constructor
  · exact calculateRSI_mono risingBars15 14 (by norm_num)
      (by norm_num [risingBars15, closeBar, List.chain'_cons]) 14 (by norm_num)
      (by norm_num [risingBars15])
  · norm_num

/-- C6 counterexample: for the 25 linearly rising closes 100..124,
`calculateSMA` with window 20 at the last index is `229/2 = 114.5`, which
is not the claimed 115.5 (= 231/2). -/
theorem sma_scenario_not_115_5 :
    (calculateSMA linClosesBars 20)[24]? = some (some (229 / 2)) ∧
      (229 / 2 : ℚ) ≠ 231 / 2 := by
  constructor
  · norm_num [calculateSMA, rolling, linClosesBars, closeBar, List.range_succ]
  · norm_num

/-- C6 (amended): at the last index the window-20 SMA of the 25 linearly
rising closes equals the arithmetic mean of the last 20 closes, and that
mean is `114.5 = 229/2` (not 115.5). -/
theorem sma_scenario_mean_value :
    (calculateSMA linClosesBars 20)[24]? =
        some (some ((((linClosesBars.map PriceBar.close).drop 5).take 20).sum / 20)) ∧
      (((linClosesBars.map PriceBar.close).drop 5).take 20).sum / 20 = (229 / 2 : ℚ) := by
  have hmean : (((linClosesBars.map PriceBar.close).drop 5).take 20).sum / 20 = (229 / 2 : ℚ) := by
    norm_num [linClosesBars, closeBar]
  refine ⟨?_, hmean⟩
  rw [hmean]
  norm_num [calculateSMA, rolling, linClosesBars, closeBar, List.range_succ]

/-- A positional map over `List.range` whose function is constantly `null`
is the all-null series. -/
theorem rangeMap_none {f : Nat → Option ℚ} (n : Nat) (hf : ∀ i < n, f i = none) :
    (List.range n).map f = List.replicate n none := by
  refine List.eq_replicate_iff.mpr ⟨by simp, ?_⟩
  intro b hb
  simp only [List.mem_map, List.mem_range] at hb
  obtain ⟨i, hi, rfl⟩ := hb
  exact hf i hi

/-- `rolling` on fewer values than the window is all-null. -/
theorem rolling_short {α : Type} (values : List α) (window : Nat) (reducer : List α → ℚ)
    (h : values.length < window) :
    rolling values window reducer = List.replicate values.length none :=
  rangeMap_none _ (fun i hi => if_pos (by omega))

/-- `rolling` preserves the input length. -/
theorem rolling_length {α : Type} (values : List α) (window : Nat) (reducer : List α → ℚ) :
    (rolling values window reducer).length = values.length := by
  simp [rolling]

/-- The EMA loop emits one entry per input entry. -/
theorem emaGo_length (m : ℚ) (values : List (Option ℚ)) :
    ∀ p : Option ℚ, (emaGo m p values).length = values.length := by
  induction values with
  | nil => intro p; simp [emaGo]
  | cons v rest ih =>
    intro p
    cases v with
    | none => simp [emaGo, ih]
    | some x =>
      cases p with
      | none => simp [emaGo, ih]
      | some q => simp [emaGo, ih]

/-- `ema` preserves the input length. -/
theorem ema_length (values : List (Option ℚ)) (period : Nat) :
    (ema values period).length = values.length :=
  emaGo_length _ values none

/-- The RSI loop emits only `null` while its loop counter cannot reach the
window before the input ends. -/
theorem rsiGo_short (rest : List ℚ) :
    ∀ (window i : Nat) (g l prev : ℚ), i + rest.length ≤ window →
      rsiGo window i g l prev rest = List.replicate rest.length none := by
  induction rest with
  | nil => intro window i g l prev _; simp [rsiGo]
  | cons c tail ih =>
    intro window i g l prev h
    have hlen : (c :: tail).length = tail.length + 1 := by simp
    rw [hlen] at h
    have h1 : i ≤ window := by omega
    have h2 : i ≠ window := by omega
    simp only [rsiGo, if_pos h1, if_neg h2]
    rw [ih window (i + 1) _ _ c (by omega)]
    simp [List.replicate_succ]

/-- `calculateRSI` on fewer bars than the window is all-null. -/
theorem calculateRSI_short (points : List PriceBar) (window : Nat)
    (h : points.length < window) :
    calculateRSI points window = List.replicate points.length none := by
  rcases hmap : points.map PriceBar.close with _ | ⟨c, rest⟩
  · have h0 : points.length = 0 := by simpa using congrArg List.length hmap
    simp [calculateRSI, hmap, h0]
  · have hlen : rest.length + 1 = points.length := by
      have h1 := congrArg List.length hmap
      simpa using h1.symm
    simp only [calculateRSI, hmap]
    rw [rsiGo_short rest window 1 0 0 c (by omega), ← hlen, List.replicate_succ]

/-- C3 (amended): on inputs shorter than the window, SMA, RSI, the
Bollinger upper/lower bands and the stochastic `%K` are all-null series of
the input's length, and every indicator series (MACD line and signal line
and `%D` included) has the input's length; but the MACD line/signal and
`%D` are *not* all-null on short inputs (see the counterexample), because
the self-seeded EMA is non-null from the first bar and `%D`'s reducer
coerces null `%K` entries to 0. -/
theorem short_input_all_null (points : List PriceBar)
    (window kWindow dWindow sW lW sigW : Nat) (msqrt : ℚ → ℚ) (sd : ℚ)
    (hw : points.length < window) (hk : points.length < kWindow) :
    calculateSMA points window = List.replicate points.length none ∧
    calculateRSI points window = List.replicate points.length none ∧
    (calculateBollingerBands msqrt points window sd).upper =
      List.replicate points.length none ∧
    (calculateBollingerBands msqrt points window sd).lower =
      List.replicate points.length none ∧
    (calculateStochasticOscillator points kWindow dWindow).percentK =
      List.replicate points.length none ∧
    (calculateMACD points sW lW sigW).macd.length = points.length ∧
    (calculateMACD points sW lW sigW).signal.length = points.length ∧
    (calculateStochasticOscillator points kWindow dWindow).percentD.length =
      points.length := by
  have hmacd : (calculateMACD points sW lW sigW).macd.length = points.length := by
    simp only [calculateMACD]
    rw [List.length_zipWith, ema_length, ema_length]
    simp
  refine ⟨?_, calculateRSI_short points window hw, ?_, ?_, ?_, hmacd, ?_, ?_⟩
  · unfold calculateSMA
    rw [rolling_short _ _ _ (by simpa using hw)]
    simp
  · simp only [calculateBollingerBands]
    exact rangeMap_none _ (fun i hi => if_pos (by omega))
  · simp only [calculateBollingerBands]
    exact rangeMap_none _ (fun i hi => if_pos (by omega))
  · simp only [calculateStochasticOscillator]
    exact rangeMap_none _ (fun i hi => if_pos (by omega))
  · simp only [calculateMACD]
    rw [ema_length, List.length_zipWith, ema_length, ema_length]
    simp
  · simp only [calculateStochasticOscillator]
    rw [rolling_length]
    simp

/-- C3 witness: a 3-bar input with window 5 and stochastic window 4 gives
all-null SMA/RSI/Bollinger/%K series of length 3 and length-3 MACD and %D
series. -/
theorem short_input_all_null_witness :
    calculateSMA bars3 5 = List.replicate bars3.length none ∧
    calculateRSI bars3 5 = List.replicate bars3.length none ∧
    (calculateBollingerBands (fun q => q) bars3 5 2).upper =
      List.replicate bars3.length none ∧
    (calculateBollingerBands (fun q => q) bars3 5 2).lower =
      List.replicate bars3.length none ∧
    (calculateStochasticOscillator bars3 4 3).percentK =
      List.replicate bars3.length none ∧
    (calculateMACD bars3 12 26 9).macd.length = bars3.length ∧
    (calculateMACD bars3 12 26 9).signal.length = bars3.length ∧
    (calculateStochasticOscillator bars3 4 3).percentD.length = bars3.length :=
  short_input_all_null bars3 5 4 3 12 26 9 (fun q => q) 2
    (by norm_num [bars3]) (by norm_num [bars3])

/-- C3 counterexample: on a 3-bar input (shorter than every default
window) the MACD line is already non-null at index 0 and the stochastic
`%D` is non-null at index 2, refuting the all-null claim for those two
series. -/
theorem short_input_not_all_null :
    (calculateMACD bars3 12 26 9).macd[0]? = some (some 0) ∧
      (calculateStochasticOscillator bars3 14 3).percentD[2]? = some (some 0) ∧
      bars3.length < 26 ∧ bars3.length < 14 := by
  refine ⟨?_, ?_, by norm_num [bars3], by norm_num [bars3]⟩
  · norm_num [calculateMACD, ema, emaGo, bars3, closeBar, optSub]
  · norm_num [calculateStochasticOscillator, rolling, bars3, closeBar, List.range_succ]

/-- Every member of a list is at most its `Math.max` spread. -/
theorem listMax_ge (l : List ℚ) : ∀ x ∈ l, x ≤ listMax l := by
  induction l with
  | nil => simp
  | cons a l ih =>
    intro x hx
    cases hl : l with
    | nil =>
      subst hl
      simp only [List.mem_singleton] at hx
      subst hx
      exact le_rfl
    | cons b m =>
      subst hl
      have hM : listMax (a :: b :: m) = max a (listMax (b :: m)) := rfl
      rw [hM]
      rcases List.mem_cons.mp hx with rfl | hx2
      · exact le_max_left _ _
      · exact le_trans (ih x hx2) (le_max_right _ _)

/-- Every member of a list is at least its `Math.min` spread. -/
theorem listMin_le (l : List ℚ) : ∀ x ∈ l, listMin l ≤ x := by
  induction l with
  | nil => simp
  | cons a l ih =>
    intro x hx
    cases hl : l with
    | nil =>
      subst hl
      simp only [List.mem_singleton] at hx
      subst hx
      exact le_rfl
    | cons b m =>
      subst hl
      have hM : listMin (a :: b :: m) = min a (listMin (b :: m)) := rfl
      rw [hM]
      rcases List.mem_cons.mp hx with rfl | hx2
      · exact min_le_left _ _
      · exact le_trans (min_le_right _ _) (ih x hx2)

/-- C5 (amended): under `low ≤ close ≤ high` per bar, every non-null `%K`
value lies in `[0,100]`, and `%K = 0` exactly when the bar's close equals
the trailing `kWindow` minimum low — which holds in the zero-range case
but also whenever the close merely touches the trailing low with a
nonzero range. -/
theorem percentK_in_range_and_zero_iff (points : List PriceBar) (kWindow dWindow : Nat)
    (hk : 1 ≤ kWindow)
    (hbars : ∀ b ∈ points, b.low ≤ b.close ∧ b.close ≤ b.high)
    (i : Nat) (v : ℚ)
    (hv : (calculateStochasticOscillator points kWindow dWindow).percentK[i]? =
      some (some v)) :
    0 ≤ v ∧ v ≤ 100 ∧
      ∃ b, points[i]? = some b ∧
        (v = 0 ↔ b.close =
          listMin (((points.map PriceBar.low).drop (i + 1 - kWindow)).take kWindow)) := by
  simp only [calculateStochasticOscillator, List.getElem?_map] at hv
  by_cases hi : i < points.length
  · rw [List.getElem?_range hi] at hv
    simp only [Option.map_some', Option.some.injEq] at hv
    have hb : points[i]? = some points[i] := List.getElem?_eq_getElem hi
    set b := points[i] with hbdef
    have hmem : b ∈ points := List.getElem?_mem hb
    obtain ⟨hlc, hch⟩ := hbars b hmem
    by_cases hkw : i + 1 < kWindow
    · rw [if_pos hkw] at hv
      simp at hv
    · rw [if_neg hkw] at hv
      have hclose : (Option.map PriceBar.close points[i]?).getD 0 = b.close := by
        rw [hb]
        rfl
      have hhigh : b.high ∈ ((points.map PriceBar.high).drop (i + 1 - kWindow)).take kWindow := by
        apply List.getElem?_mem (n := kWindow - 1)
        rw [List.getElem?_take_of_lt (by omega), List.getElem?_drop]
        have harith : i + 1 - kWindow + (kWindow - 1) = i := by omega
        rw [harith, List.getElem?_map, hb]
        rfl
      have hlow : b.low ∈ ((points.map PriceBar.low).drop (i + 1 - kWindow)).take kWindow := by
        apply List.getElem?_mem (n := kWindow - 1)
        rw [List.getElem?_take_of_lt (by omega), List.getElem?_drop]
        have harith : i + 1 - kWindow + (kWindow - 1) = i := by omega
        rw [harith, List.getElem?_map, hb]
        rfl
      set hs := ((points.map PriceBar.high).drop (i + 1 - kWindow)).take kWindow with hsdef
      set ls := ((points.map PriceBar.low).drop (i + 1 - kWindow)).take kWindow with lsdef
      have hmax : b.high ≤ listMax hs := listMax_ge hs b.high hhigh
      have hmin : listMin ls ≤ b.low := listMin_le ls b.low hlow
      by_cases heq : listMax hs = listMin ls
      · rw [if_pos heq] at hv
        have hv0 : v = 0 := by
          simpa using hv.symm
        subst hv0
        refine ⟨le_rfl, by norm_num, b, hb, ?_⟩
        have : b.close = listMin ls := le_antisymm (by linarith) (by linarith)
        simp [this]
      · rw [if_neg heq, hclose] at hv
        have hlo : listMin ls < listMax hs :=
          lt_of_le_of_ne (by linarith) (Ne.symm heq)
        have hv2 : (b.close - listMin ls) / (listMax hs - listMin ls) * 100 = v := by
          simpa using hv
        set r := (b.close - listMin ls) / (listMax hs - listMin ls) with hrdef
        have hr0 : 0 ≤ r :=
          div_nonneg (by linarith) (by linarith)
        have hr1 : r ≤ 1 :=
          (div_le_one (by linarith)).mpr (by linarith)
        refine ⟨by nlinarith, by nlinarith, b, hb, ?_⟩
        constructor
        · intro hv0
          have hr00 : r = 0 := by nlinarith
          have hnum : b.close - listMin ls = 0 := by
            rcases div_eq_zero_iff.mp hr00 with h | h
            · exact h
            · exfalso
              have : listMax hs - listMin ls ≠ 0 := by linarith
              exact this h
          linarith
        · intro hcl
          have : b.close - listMin ls = 0 := by linarith
          rw [← hv2, hrdef, this]
          simp
  · exfalso
    have : (List.range points.length)[i]? = none :=
      List.getElem?_eq_none (by simpa using le_of_not_lt hi)
    rw [this] at hv
    simp at hv

/-- C5 counterexample: on `flatLowBars` every bar satisfies
`low ≤ close ≤ high`, the trailing 14-bar range at index 13 is nonzero
(max high 2, min low 1), and yet `%K` at index 13 is 0 — so `%K = 0` is
not equivalent to a zero trailing range. -/
theorem percentK_zero_nonzero_range :
    (∀ b ∈ flatLowBars, b.low ≤ b.close ∧ b.close ≤ b.high) ∧
      (calculateStochasticOscillator flatLowBars 14 3).percentK[13]? = some (some 0) ∧
      listMax (((flatLowBars.map PriceBar.high).drop (13 + 1 - 14)).take 14) ≠
        listMin (((flatLowBars.map PriceBar.low).drop (13 + 1 - 14)).take 14) := by
  refine ⟨by norm_num [flatLowBars, hlcBar, List.replicate], ?_, ?_⟩
  · norm_num [calculateStochasticOscillator, flatLowBars, hlcBar, List.range_succ,
      listMax, listMin, List.replicate]
  · norm_num [flatLowBars, hlcBar, List.replicate, listMax, listMin]

/-- C5 witness: the `%K` value 0 read off `flatLowBars` at index 13 is in
range and is 0 precisely because the close equals the trailing low. -/
theorem percentK_in_range_and_zero_iff_witness :
    0 ≤ (0 : ℚ) ∧ (0 : ℚ) ≤ 100 ∧
      ∃ b, flatLowBars[13]? = some b ∧
        ((0 : ℚ) = 0 ↔ b.close =
          listMin (((flatLowBars.map PriceBar.low).drop (13 + 1 - 14)).take 14)) :=
  percentK_in_range_and_zero_iff flatLowBars 14 3 (by norm_num)
    (by norm_num [flatLowBars, hlcBar, List.replicate]) 13 0
    (by norm_num [calculateStochasticOscillator, flatLowBars, hlcBar, List.range_succ,
      listMax, listMin, List.replicate])
